import Mathlib

/-!
GhostGPT streaming chat client — verification of the core spec.

Shallow embedding of the streaming chat session engine of the GhostGPT
desktop client (`src/components/MessageList.tsx`: the `App` component's
`sendMessage` / `stopGeneration` / `toggleVoiceRecording` handlers, and the
`MessageList` component's `parseContent` / `processInlineCode` helpers).

Conventions of the embedding:
* JavaScript strings are modelled as Lean `String`; where the source scans
  character by character, the scan is performed on `String.toList`.
* `JSON.parse` (a platform builtin, not repository code) is modelled by
  `jsonParse`, a parser for the JSON subset the client exchanges: objects,
  arrays, strings with the common single-character escapes, integer
  numbers, booleans and null (`\uXXXX` escapes and fractional/exponent
  numbers are outside the modelled subset and fail to parse).
* JavaScript truthiness of a property access and string coercion on `+=`
  are modelled by `truthyField` and `jsToString` (array/object-to-string
  coercion is approximated; no modelled behaviour depends on it).
* React's `setMessages(prev => ...)` updaters mutate the last array entry
  in place; they are modelled as pure functions on the message list.
* Timestamps (`Date.now()`) are ambient clock values that no modelled
  behaviour inspects; they are omitted from the `Message` structure.
-/

namespace GhostGPT

/-! ## JSON values and the `JSON.parse` model -/

/-- A JSON value, covering the frame shapes the client parses
(`{content?: string}` and `{error: string}`) and enough of the rest of
JSON to decide well-formedness of arbitrary frame payloads. -/
inductive JValue where
  | jnull : JValue
  | jbool : Bool → JValue
  | jnum : Int → JValue
  | jstr : String → JValue
  | jarr : List JValue → JValue
  | jobj : List (String × JValue) → JValue
  deriving Repr

/-- JSON insignificant whitespace. -/
def isJsonWs (c : Char) : Bool :=
  c = ' ' ∨ c = '\t' ∨ c = '\n' ∨ c = '\r'

/-- Drop leading JSON whitespace. -/
def skipWs (s : List Char) : List Char :=
  s.dropWhile isJsonWs

/-- Decode one single-character JSON string escape (the character after
the backslash); `\uXXXX` is outside the modelled subset. -/
def unescapeChar (e : Char) : Option Char :=
  if e = '"' ∨ e = '\\' ∨ e = '/' then some e
  else if e = 'n' then some '\n'
  else if e = 't' then some '\t'
  else if e = 'r' then some '\r'
  else if e = 'b' then some (Char.ofNat 8)
  else if e = 'f' then some (Char.ofNat 12)
  else none

/-- Parse the rest of a JSON string literal after its opening quote,
returning the decoded characters and the remaining input. -/
def parseJStringChars : List Char → Option (List Char × List Char)
  | [] => none
  | '"' :: rest => some ([], rest)
  | '\\' :: e :: rest =>
    match unescapeChar e with
    | some c => (parseJStringChars rest).map (fun p => (c :: p.1, p.2))
    | none => none
  | c :: rest => (parseJStringChars rest).map (fun p => (c :: p.1, p.2))

/-- Parse a run of decimal digits into a natural number. -/
def parseDigits : List Char → Option (Nat × List Char)
  | s =>
    let ds := s.takeWhile Char.isDigit
    if ds.isEmpty then none
    else some (ds.foldl (fun n c => n * 10 + (c.toNat - 48)) 0, s.drop ds.length)

mutual

/-- Parse one JSON value (fuel-indexed; `jsonParse` supplies ample fuel). -/
def parseJValue : Nat → List Char → Option (JValue × List Char)
  | 0, _ => none
  | fuel + 1, s =>
    match skipWs s with
    | '"' :: rest => (parseJStringChars rest).map (fun p => (.jstr (String.mk p.1), p.2))
    | '{' :: rest =>
      match skipWs rest with
      | '}' :: r => some (.jobj [], r)
      | r => (parseObjMembers fuel r).map (fun p => (.jobj p.1, p.2))
    | '[' :: rest =>
      match skipWs rest with
      | ']' :: r => some (.jarr [], r)
      | r => (parseArrElems fuel r).map (fun p => (.jarr p.1, p.2))
    | 'n' :: 'u' :: 'l' :: 'l' :: r => some (JValue.jnull, r)
    | 't' :: 'r' :: 'u' :: 'e' :: r => some (JValue.jbool true, r)
    | 'f' :: 'a' :: 'l' :: 's' :: 'e' :: r => some (JValue.jbool false, r)
    | '-' :: r =>
      match parseDigits r with
      | some (n, rest) =>
        match rest with
        | '.' :: _ => none
        | 'e' :: _ => none
        | 'E' :: _ => none
        | _ => some (.jnum (-(n : Int)), rest)
      | none => none
    | r =>
      match parseDigits r with
      | some (n, rest) =>
        match rest with
        | '.' :: _ => none
        | 'e' :: _ => none
        | 'E' :: _ => none
        | _ => some (.jnum (n : Int), rest)
      | none => none

/-- Parse the members of a JSON object after `{` (input known non-`}`). -/
def parseObjMembers : Nat → List Char → Option (List (String × JValue) × List Char)
  | 0, _ => none
  | fuel + 1, s =>
    match skipWs s with
    | '"' :: rest =>
      match parseJStringChars rest with
      | some (key, afterKey) =>
        match skipWs afterKey with
        | ':' :: afterColon =>
          match parseJValue fuel afterColon with
          | some (v, afterVal) =>
            match skipWs afterVal with
            | ',' :: more =>
              (parseObjMembers fuel more).map
                (fun p => ((String.mk key, v) :: p.1, p.2))
            | '}' :: r => some ([(String.mk key, v)], r)
            | _ => none
          | none => none
        | _ => none
      | none => none
    | _ => none

/-- Parse the elements of a JSON array after `[` (input known non-`]`). -/
def parseArrElems : Nat → List Char → Option (List JValue × List Char)
  | 0, _ => none
  | fuel + 1, s =>
    match parseJValue fuel s with
    | some (v, afterVal) =>
      match skipWs afterVal with
      | ',' :: more => (parseArrElems fuel more).map (fun p => (v :: p.1, p.2))
      | ']' :: r => some ([v], r)
      | _ => none
    | none => none

end

/-- Model of `JSON.parse` on a frame payload: parse one value and require
only whitespace to remain; any failure models the thrown `SyntaxError`
(which the source catches and treats as a skip). -/
def jsonParse (s : List Char) : Option JValue :=
  match parseJValue (s.length + 1) s with
  | some (v, rest) => if (skipWs rest).isEmpty then some v else none
  | none => none

/-- JavaScript property access `obj.k`: defined only on objects; a
duplicate key resolves to its last occurrence, as in `JSON.parse`. -/
def JValue.getField (v : JValue) (k : String) : Option JValue :=
  match v with
  | .jobj fields => fields.foldl (fun acc kv => if kv.1 = k then some kv.2 else acc) none
  | _ => none

/-- JavaScript truthiness of a JSON value. -/
def JValue.truthy : JValue → Bool
  | .jnull => false
  | .jbool b => b
  | .jnum n => n ≠ 0
  | .jstr s => s ≠ ""
  | .jarr _ => true
  | .jobj _ => true

/-- Truthiness of `obj.k` (an absent field is `undefined`, hence falsy). -/
def truthyField (v : JValue) (k : String) : Bool :=
  match v.getField k with
  | some x => x.truthy
  | none => false

/-- JavaScript string coercion as used by `accumulatedContent += parsed.content`.
Exact on strings, numbers, booleans and null; array/object coercion is a
best-effort approximation (no modelled behaviour reaches those cases). -/
def jsToString : JValue → String
  | .jnull => "null"
  | .jbool b => if b then "true" else "false"
  | .jnum n => toString n
  | .jstr s => s
  | .jarr _ => ""
  | .jobj _ => "[object Object]"

/-- JavaScript `\s` and trimmed whitespace (ASCII subset): space, tab,
newline, carriage return, vertical tab, form feed. -/
def isJsWsChar (c : Char) : Bool :=
  c = ' ' ∨ c = '\t' ∨ c = '\n' ∨ c = '\r' ∨ c = Char.ofNat 11 ∨ c = Char.ofNat 12

/-- JavaScript `String.prototype.trim` (ASCII whitespace subset): strip
leading and trailing whitespace. -/
def jsTrim (s : String) : String :=
  String.mk (((s.toList.dropWhile isJsWsChar).reverse.dropWhile isJsWsChar).reverse)

/-! ## Data model: messages and application state -/

/-- `role: 'user' | 'assistant'` of the `Message` interface. -/
inductive Role where
  | user : Role
  | assistant : Role
  deriving Repr, DecidableEq

/-- The `Message` interface (string-content case; `timestamp` is an
ambient clock value no modelled behaviour inspects and is omitted;
an absent `isStreaming` field is JavaScript `undefined`, modelled as
`false`, matching its only uses as a truthiness test). -/
structure Message where
  role : Role
  content : String
  screenshot : Option String := none
  isStreaming : Bool := false
  deriving Repr, DecidableEq

/-- The `App` component's state hooks: `messages`, `input`, `isLoading`,
`isRecording`, `error`. -/
structure AppState where
  messages : List Message
  input : String
  isLoading : Bool
  isRecording : Bool
  error : Option String
  deriving Repr, DecidableEq

/-- The initial state of the `App` component's hooks. -/
def initialState : AppState :=
  { messages := [], input := "", isLoading := false, isRecording := false,
    error := none }

/-- The `onChange` handler of the textarea: `setInput(e.target.value)`. -/
def setInput (st : AppState) (s : String) : AppState :=
  { st with input := s }

/-! ## StreamDecoder: the read loop of `sendMessage` -/

/-- The `setMessages(prev => ...)` updater pattern shared by the `[DONE]`
and delta branches: copy the array, and if the last entry's role is
`assistant`, replace it by `f` of it (the source mutates the entry in
place). On an empty list the source would fault reading
`updated[updated.length - 1].role`; that point is unreachable because an
assistant placeholder is appended before the read loop starts. -/
def setLastAssistant (msgs : List Message) (f : Message → Message) : List Message :=
  match msgs.getLast? with
  | none => msgs
  | some m => if m.role = .assistant then msgs.dropLast ++ [f m] else msgs

/-- One iteration of `for (const line of lines)` in `sendMessage`:
given the accumulated content and the message list, process one line.
Returns the new accumulator, the new message list, and whether the
`break` after `[DONE]` fires (ending this chunk's line loop).

Faithful to the source: `throw new Error(parsed.error)` is raised inside
the same `try` whose `catch` comment reads "Skip invalid JSON", so an
error frame has no effect beyond skipping the line. -/
def processLine (acc : String) (msgs : List Message) (line : List Char) :
    String × List Message × Bool :=
  if "data: ".toList.isPrefixOf line then
    if line.drop 6 = "[DONE]".toList then
      (acc, setLastAssistant msgs (fun m => { m with isStreaming := false }), true)
    else
      match jsonParse (line.drop 6) with
      | none => (acc, msgs, false)
      | some parsed =>
        if truthyField parsed "error" then
          (acc, msgs, false)
        else if truthyField parsed "content" then
          (acc ++ jsToString ((parsed.getField "content").getD .jnull),
           setLastAssistant msgs (fun m =>
             { m with
               content := acc ++ jsToString ((parsed.getField "content").getD .jnull) }),
           false)
        else (acc, msgs, false)
  else (acc, msgs, false)

/-- The line loop of one chunk: process lines in order, stopping early
when the `[DONE]` `break` fires. -/
def processLines (acc : String) (msgs : List Message) :
    List (List Char) → String × List Message
  | [] => (acc, msgs)
  | l :: ls =>
    if (processLine acc msgs l).2.2 then
      ((processLine acc msgs l).1, (processLine acc msgs l).2.1)
    else
      processLines (processLine acc msgs l).1 (processLine acc msgs l).2.1 ls

/-- `chunk.split('\n')` of JavaScript: split on every newline, keeping
empty pieces (so `"a\n"` splits to `["a", ""]` and `""` to `[""]`). -/
def splitOnNl : List Char → List (List Char)
  | [] => [[]]
  | c :: cs =>
    let r := splitOnNl cs
    if c = '\n' then [] :: r
    else
      match r with
      | h :: t => (c :: h) :: t
      | [] => [[c]]

/-- One iteration of the outer `while (true)` read loop: decode a chunk,
split it on newlines, run the line loop. Note the `[DONE]` `break` only
ends the current chunk's line loop; later chunks are still processed. -/
def processChunk (acc : String) (msgs : List Message) (chunk : List Char) :
    String × List Message :=
  processLines acc msgs (splitOnNl chunk)

/-- The full read loop over the sequence of chunks the reader yields. -/
def processStream (acc : String) (msgs : List Message) :
    List (List Char) → String × List Message
  | [] => (acc, msgs)
  | c :: cs =>
    processStream (processChunk acc msgs c).1 (processChunk acc msgs c).2 cs

/-! ## SessionController: `sendMessage`, `stopGeneration`, voice -/

/-- The user `Message` appended by `sendMessage` on the text-only path
(`withScreenshot = false`, so `content` is the trimmed input, which the
guard ensures is non-empty). -/
def userMessage (st : AppState) : Message :=
  { role := .user, content := jsTrim st.input, screenshot := none }

/-- The streaming assistant placeholder appended before the read loop. -/
def assistantPlaceholder : Message :=
  { role := .assistant, content := "", isStreaming := true }

/-- The transcript produced by running the read loop from the placeholder
(`accumulatedContent` starts at `''`). -/
def runTurn (msgs : List Message) (chunks : List (List Char)) : List Message :=
  (processStream "" msgs chunks).2

/-- `sendMessage(false)` on the text path, with the response streaming the
given chunks to completion. The guard `(!input.trim() && !withScreenshot)
|| isLoading` returns without any state change. Otherwise: `setError(null)`,
append the user message, clear the input, append the streaming assistant
placeholder, run the read loop, and in `finally` set `isLoading` false.
No statement on this path sets `error` after the initial `setError(null)`. -/
def sendMessage (st : AppState) (chunks : List (List Char)) : AppState :=
  if jsTrim st.input = "" ∨ st.isLoading then st
  else
    { st with
      messages := runTurn (st.messages ++ [userMessage st, assistantPlaceholder]) chunks
      input := ""
      isLoading := false
      error := none }

/-- `sendMessage` interrupted by `stopGeneration` after `k` chunks were
read: `abortController.abort()` makes the pending `reader.read()` reject
with `AbortError`, so later chunks are never read; the catch's
`AbortError` branch only logs, and `finally` sets `isLoading` false.
Nothing clears `isStreaming` on this path. -/
def sendMessageCancelled (st : AppState) (chunks : List (List Char)) (k : Nat) :
    AppState :=
  if jsTrim st.input = "" ∨ st.isLoading then st
  else
    { st with
      messages := runTurn (st.messages ++ [userMessage st, assistantPlaceholder])
        (chunks.take k)
      input := ""
      isLoading := false
      error := none }

/-- The stop branch of `toggleVoiceRecording` (entered when
`isRecording` and not `isLoading`), given the transcription string the
external collaborator returned and, when a chat request is issued, the
chunks it streams. An empty-or-whitespace transcription sets the
"No speech detected" notice and returns before appending any message or
issuing the chat request; otherwise the path mirrors `sendMessage` with
the untrimmed transcription as the user content. -/
def stopVoiceRecording (st : AppState) (transcription : String)
    (chunks : List (List Char)) : AppState :=
  if st.isLoading ∨ ¬ st.isRecording then st
  else if jsTrim transcription = "" then
    { st with
      isRecording := false
      isLoading := false
      error := some "No speech detected" }
  else
    { st with
      isRecording := false
      messages := runTurn
        (st.messages ++
          [{ role := .user, content := transcription, screenshot := none },
           assistantPlaceholder]) chunks
      isLoading := false
      error := st.error }

/-! ## ContentSegmenter: `MessageList.parseContent`

The three fenced-block grammars are the JavaScript regexes
`/```(\w+)\s*\n([\s\S]*?)```/g`, `/```\s*\n([\s\S]*?)```/g` and
`/```([\s\S]*?)```/g`. Their matching is modelled directly:

* `\w` is ASCII `[A-Za-z0-9_]`, `\s` is modelled by its ASCII subset;
* a greedy `\s*` followed by `\n` backtracks to the **last** newline of
  the maximal whitespace run (and fails when the run has none);
* a greedy `\w+` cannot help `\s*\n` by backtracking (a shorter word run
  leaves a word character where a whitespace/newline is required), so it
  always captures the maximal non-empty word run;
* the lazy `[\s\S]*?` before the closing delimiter matches up to the
  first following occurrence of ```` ``` ````;
* `matchAll` yields non-overlapping matches left-to-right, resuming at
  the end of each match (all three patterns match at least 6 characters,
  so the zero-length-match advance rule never fires). -/

/-- JavaScript `\w`: ASCII letters, digits, underscore. -/
def isWordChar (c : Char) : Bool :=
  c.isAlphanum ∨ c = '_'

/-- Index of the first occurrence of `pat` in `s`, if any. -/
def findIdx (pat : List Char) : List Char → Option Nat
  | [] => if pat.isEmpty then some 0 else none
  | c :: rest =>
    if pat.isPrefixOf (c :: rest) then some 0
    else (findIdx pat rest).map (· + 1)

/-- Index of the first occurrence of `pat` in `s` at position `≥ i`. -/
def findFrom (s pat : List Char) (i : Nat) : Option Nat :=
  (findIdx pat (s.drop i)).map (· + i)

/-- The slice `s[a..b)`. -/
def slice (s : List Char) (a b : Nat) : List Char :=
  (s.drop a).take (b - a)

/-- Index (within `run`) of the last `'\n'`, if any. -/
def lastNl (run : List Char) : Option Nat :=
  (findIdx ['\n'] run.reverse).map (fun j => run.length - 1 - j)

/-- One regex match of a fenced-block grammar: half-open extent
`[start, stop)` in the input, the captured language tag (pattern 1 only)
and the captured body. -/
structure FenceMatch where
  start : Nat
  stop : Nat
  lang : Option (List Char)
  body : List Char
  deriving Repr, DecidableEq

/-- Attempt pattern 1, ``` ```(\w+)\s*\n([\s\S]*?)``` ``, at position `a`. -/
def matchP1At (s : List Char) (a : Nat) : Option FenceMatch :=
  if "```".toList.isPrefixOf (s.drop a) then
    let w := (s.drop (a + 3)).takeWhile isWordChar
    if w.isEmpty then none
    else
      let run := (s.drop (a + 3 + w.length)).takeWhile isJsWsChar
      match lastNl run with
      | none => none
      | some k =>
        let bodyStart := a + 3 + w.length + k + 1
        match findFrom s "```".toList bodyStart with
        | none => none
        | some b => some ⟨a, b + 3, some w, slice s bodyStart b⟩
  else none

/-- Attempt pattern 2, ``` ```\s*\n([\s\S]*?)``` ``, at position `a`. -/
def matchP2At (s : List Char) (a : Nat) : Option FenceMatch :=
  if "```".toList.isPrefixOf (s.drop a) then
    let run := (s.drop (a + 3)).takeWhile isJsWsChar
    match lastNl run with
    | none => none
    | some k =>
      let bodyStart := a + 3 + k + 1
      match findFrom s "```".toList bodyStart with
      | none => none
      | some b => some ⟨a, b + 3, none, slice s bodyStart b⟩
  else none

/-- Attempt pattern 3, ``` ```([\s\S]*?)``` ``, at position `a`. -/
def matchP3At (s : List Char) (a : Nat) : Option FenceMatch :=
  if "```".toList.isPrefixOf (s.drop a) then
    match findFrom s "```".toList (a + 3) with
    | none => none
    | some b => some ⟨a, b + 3, none, slice s (a + 3) b⟩
  else none

/-- Leftmost match attempt at position `≥ a` (fuel-driven scan over
start positions). -/
def scanFrom (f : Nat → Option FenceMatch) : Nat → Nat → Option FenceMatch
  | 0, _ => none
  | fuel + 1, a =>
    match f a with
    | some m => some m
    | none => scanFrom f fuel (a + 1)

/-- `text.matchAll(pattern)`: non-overlapping matches left-to-right,
each search resuming at the end of the previous match. -/
def matchAllAux (f : Nat → Option FenceMatch) (len : Nat) :
    Nat → Nat → List FenceMatch
  | 0, _ => []
  | fuel + 1, pos =>
    match scanFrom f (len + 1 - pos) pos with
    | none => []
    | some m => m :: matchAllAux f len fuel (max m.stop (pos + 1))

/-- All matches of a fenced-block grammar in `s`. -/
def matchAll (f : List Char → Nat → Option FenceMatch) (s : List Char) :
    List FenceMatch :=
  matchAllAux (f s) s.length (s.length + 1) 0

/-- An output part of `parseContent`: `{type: 'text'|'code', content,
language?}`. -/
inductive Part where
  | text : String → Part
  | code : String → String → Part
  deriving Repr, DecidableEq

/-- The language of a code part: pattern 1's capture, with
`match[1] || 'plaintext'` supplying the default for the other patterns. -/
def langOf (lang : Option (List Char)) : String :=
  match lang with
  | some l => if l.isEmpty then "plaintext" else String.mk l
  | none => "plaintext"

/-- The match loop body of `parseContent`: walk the matches left-to-right
keeping `lastIndex`, pushing the trimmed text before each match (dropped
when empty), the code part (`if (codeContent)` drops an empty body), and
finally the trimmed remaining text. -/
def buildParts (s : List Char) : List FenceMatch → Nat → List Part
  | [], lastIndex =>
    if lastIndex < s.length then
      let remaining := jsTrim (String.mk (s.drop lastIndex))
      if remaining = "" then [] else [.text remaining]
    else []
  | m :: rest, lastIndex =>
    let pre :=
      if lastIndex < m.start then
        let t := jsTrim (String.mk (slice s lastIndex m.start))
        if t = "" then [] else [Part.text t]
      else []
    let codePart :=
      if m.body.isEmpty then [] else [Part.code (String.mk m.body) (langOf m.lang)]
    pre ++ codePart ++ buildParts s rest m.stop

/-- The pattern-cascade selection of `parseContent`: the first pattern
(in priority order) with at least one match wins and `break` stops the
loop; the others are never consulted. -/
def selectMatches (s : List Char) : List FenceMatch :=
  if ¬ (matchAll matchP1At s).isEmpty then matchAll matchP1At s
  else if ¬ (matchAll matchP2At s).isEmpty then matchAll matchP2At s
  else matchAll matchP3At s

/-- `MessageList.parseContent`: segment a text blob into text and code
parts. When no pattern matches anywhere, the whole (untrimmed) input is
one text part, dropped if it trims to nothing. -/
def parseContent (text : String) : List Part :=
  if (selectMatches text.toList).isEmpty then
    if jsTrim text = "" then [] else [.text text]
  else buildParts text.toList (selectMatches text.toList) 0

/-! ## InlineAnnotator: `MessageList.processInlineCode` -/

/-- An output run of `processInlineCode`: `{type: 'text'|'inline-code',
content}`. -/
inductive Run where
  | text : String → Run
  | inlineCode : String → Run
  deriving Repr, DecidableEq

/-- One inline-code match of `` /`([^`]+)`/ `` at position `i`: a
backtick, the maximal non-empty run of non-backticks, a closing backtick
(greedy `[^`]+` cannot backtrack into success, since a shorter run leaves
a non-backtick where the closing delimiter must be). Returns the content
and the half-open extent. -/
def inlineMatchAt (s : List Char) (i : Nat) : Option (Nat × Nat × List Char) :=
  match s.drop i with
  | '`' :: rest =>
    let run := rest.takeWhile (fun c => c ≠ '`')
    if run.isEmpty then none
    else if (rest.drop run.length).take 1 = ['`'] then
      some (i, i + run.length + 2, run)
    else none
  | _ => none

/-- Leftmost inline-code match at position `≥ a`. -/
def inlineScanFrom (s : List Char) : Nat → Nat → Option (Nat × Nat × List Char)
  | 0, _ => none
  | fuel + 1, a =>
    match inlineMatchAt s a with
    | some m => some m
    | none => inlineScanFrom s fuel (a + 1)

/-- The `exec` loop over `` /`([^`]+)`/g ``: non-overlapping matches
left-to-right. -/
def inlineMatchesAux (s : List Char) : Nat → Nat → List (Nat × Nat × List Char)
  | 0, _ => []
  | fuel + 1, pos =>
    match inlineScanFrom s (s.length + 1 - pos) pos with
    | none => []
    | some m => m :: inlineMatchesAux s fuel (max m.2.1 (pos + 1))

/-- All inline-code matches in `s`. -/
def inlineMatches (s : List Char) : List (Nat × Nat × List Char) :=
  inlineMatchesAux s (s.length + 1) 0

/-- The run-building loop of `processInlineCode`: text between matches
becomes untrimmed text runs, matches become inline-code runs. -/
def buildRuns (s : List Char) : List (Nat × Nat × List Char) → Nat → List Run
  | [], lastIndex =>
    if lastIndex < s.length then [.text (String.mk (s.drop lastIndex))] else []
  | m :: rest, lastIndex =>
    let pre :=
      if lastIndex < m.1 then [Run.text (String.mk (slice s lastIndex m.1))] else []
    pre ++ [Run.inlineCode (String.mk m.2.2)] ++ buildRuns s rest m.2.1

/-- `MessageList.processInlineCode`: split a prose text into plain and
inline-code runs; when the loop produced no parts at all (which happens
exactly for the empty input), push the whole text as one text run. -/
def processInlineCode (text : String) : List Run :=
  if (buildRuns text.toList (inlineMatches text.toList) 0).isEmpty then [.text text]
  else buildRuns text.toList (inlineMatches text.toList) 0

/-! ## Transcript invariants and reachability -/

/-- The transcript invariant of the spec's data model: at most one message
has `isStreaming = true` and, when present, it is the last element —
equivalently, every message before the last has `isStreaming = false`. -/
def streamingInv (msgs : List Message) : Prop :=
  ∀ m ∈ msgs.dropLast, m.isStreaming = false

/-- All turns retired: no message in the transcript is still streaming. -/
def allRetired (msgs : List Message) : Prop :=
  ∀ m ∈ msgs, m.isStreaming = false

/-- The start branch of `toggleVoiceRecording` (entered when neither
loading nor already recording): `setError(null)` and, on collaborator
success, `setIsRecording(true)`. -/
def startVoiceRecording (st : AppState) : AppState :=
  if st.isLoading ∨ st.isRecording then st
  else { st with isRecording := true, error := none }

/-- The states the application can reach through its handlers: typing,
text sends run to stream end, text sends cancelled mid-stream, and the
two voice-recording handlers. -/
inductive Reachable : AppState → Prop where
  | init : Reachable initialState
  | type (st : AppState) (s : String) :
      Reachable st → Reachable (setInput st s)
  | send (st : AppState) (chunks : List (List Char)) :
      Reachable st → Reachable (sendMessage st chunks)
  | cancel (st : AppState) (chunks : List (List Char)) (k : Nat) :
      Reachable st → Reachable (sendMessageCancelled st chunks k)
  | voiceStart (st : AppState) :
      Reachable st → Reachable (startVoiceRecording st)
  | voiceStop (st : AppState) (t : String) (chunks : List (List Char)) :
      Reachable st → Reachable (stopVoiceRecording st t chunks)

/-- Some chunk of the stream carries a complete `data: [DONE]` line. -/
def hasDoneLine (chunks : List (List Char)) : Prop :=
  ∃ c ∈ chunks, "data: [DONE]".toList ∈ splitOnNl c

/-- Reachability restricted to histories in which every completed turn
observed a `[DONE]` frame (no cancelled turns, no streams that end or
error out without `[DONE]`). -/
inductive ReachableRetired : AppState → Prop where
  | init : ReachableRetired initialState
  | type (st : AppState) (s : String) :
      ReachableRetired st → ReachableRetired (setInput st s)
  | send (st : AppState) (chunks : List (List Char)) :
      ReachableRetired st → hasDoneLine chunks →
      ReachableRetired (sendMessage st chunks)

/-! ## Decoder and transcript lemmas -/

/-- Updating the last element of a transcript that ends in an assistant
message. -/
theorem setLastAssistant_concat (base : List Message) (a : Message)
    (ha : a.role = .assistant) (f : Message → Message) :
    setLastAssistant (base ++ [a]) f = base ++ [f a] := by
  simp [setLastAssistant, ha]

/-- An empty split piece is not a frame and is skipped. -/
theorem processLine_empty (acc : String) (msgs : List Message) :
    processLine acc msgs [] = (acc, msgs, false) := rfl

/-- The `[DONE]` sentinel line clears `isStreaming` on a trailing
assistant message and fires the `break`. -/
theorem processLine_done (acc : String) (msgs : List Message) :
    processLine acc msgs "data: [DONE]".toList =
      (acc, setLastAssistant msgs (fun m => { m with isStreaming := false }), true) := rfl

/-- The sentinel payload itself is not well-formed JSON. -/
theorem jsonParse_done : jsonParse "[DONE]".toList = none := rfl

/-- A line that is neither the sentinel nor a well-formed frame leaves
the state untouched (whether or not it carries the `data: ` prefix). -/
theorem processLine_skip (acc : String) (msgs : List Message) (l : List Char)
    (h1 : jsonParse (l.drop 6) = none) (h2 : l.drop 6 ≠ "[DONE]".toList) :
    processLine acc msgs l = (acc, msgs, false) := by
  unfold processLine
  by_cases hp : "data: ".toList.isPrefixOf l = true
  · rw [if_pos hp, if_neg h2, h1]
  · rw [if_neg hp]

/-- A well-formed delta frame (no truthy error field, a non-empty string
content field) appends its text to the accumulator and writes it into a
trailing assistant message. -/
theorem processLine_delta (acc : String) (msgs : List Message) (l : List Char)
    (p : JValue) (s : String)
    (hp : "data: ".toList.isPrefixOf l = true)
    (hparse : jsonParse (l.drop 6) = some p)
    (herr : truthyField p "error" = false)
    (hc : p.getField "content" = some (.jstr s))
    (hs : s ≠ "") :
    processLine acc msgs l =
      (acc ++ s, setLastAssistant msgs (fun m => { m with content := acc ++ s }), false) := by
  have hne : l.drop 6 ≠ "[DONE]".toList := by
    intro h
    rw [h, jsonParse_done] at hparse
    exact Option.noConfusion hparse
  have htru : truthyField p "content" = true := by
    unfold truthyField
    rw [hc]
    simp [JValue.truthy, hs]
  unfold processLine
  rw [if_pos hp, if_neg hne, hparse]
  simp [herr, htru, hc, jsToString]

/-- Only the exact sentinel line makes the line loop `break`. -/
theorem processLine_brk (acc : String) (msgs : List Message) (l : List Char)
    (h : (processLine acc msgs l).2.2 = true) : l = "data: [DONE]".toList := by
  unfold processLine at h
  by_cases hp : "data: ".toList.isPrefixOf l = true
  · rw [if_pos hp] at h
    by_cases hd : l.drop 6 = "[DONE]".toList
    · obtain ⟨t, ht⟩ := List.isPrefixOf_iff_prefix.mp hp
      subst ht
      have hdl : ("data: ".toList ++ t).drop 6 = t := by simp
      rw [hdl] at hd
      rw [hd]
      rfl
    · rw [if_neg hd] at h
      cases hj : jsonParse (l.drop 6) with
      | none => rw [hj] at h; exact absurd h (by simp)
      | some p =>
        rw [hj] at h
        by_cases he : truthyField p "error" = true
        · simp [he] at h
        · by_cases hcon : truthyField p "content" = true
          · simp [he, hcon] at h
          · simp [he, hcon] at h
  · rw [if_neg hp] at h
    exact absurd h (by simp)

/-- Processing one line only ever rewrites the last element of the
transcript: the prefix is untouched, the last element stays an assistant
message, and a cleared `isStreaming` stays cleared. -/
theorem processLine_shape (acc : String) (base : List Message) (a : Message)
    (ha : a.role = .assistant) (l : List Char) :
    ∃ a', (processLine acc (base ++ [a]) l).2.1 = base ++ [a'] ∧
      a'.role = .assistant ∧
      (a.isStreaming = false → a'.isStreaming = false) := by
  unfold processLine
  by_cases hp : "data: ".toList.isPrefixOf l = true
  · rw [if_pos hp]
    by_cases hd : l.drop 6 = "[DONE]".toList
    · rw [if_pos hd]
      exact ⟨{ a with isStreaming := false },
        by rw [setLastAssistant_concat base a ha], ha, fun _ => rfl⟩
    · rw [if_neg hd]
      cases hj : jsonParse (l.drop 6) with
      | none => exact ⟨a, rfl, ha, id⟩
      | some p =>
        by_cases he : truthyField p "error" = true
        · simp only [he, if_true]
          exact ⟨a, rfl, ha, id⟩
        · by_cases hcon : truthyField p "content" = true
          · simp only [he, hcon, if_true, if_false, Bool.false_eq_true]
            refine ⟨{ a with content := acc ++ jsToString ((p.getField "content").getD .jnull) },
              ?_, ha, fun h => h⟩
            rw [setLastAssistant_concat base a ha]
          · simp only [he, hcon, Bool.false_eq_true, if_false]
            exact ⟨a, rfl, ha, id⟩
  · rw [if_neg hp]
    exact ⟨a, rfl, ha, id⟩

/-- `processLine_shape` lifted over a whole chunk's line list. -/
theorem processLines_shape (ls : List (List Char)) (acc : String)
    (base : List Message) (a : Message) (ha : a.role = .assistant) :
    ∃ a', (processLines acc (base ++ [a]) ls).2 = base ++ [a'] ∧
      a'.role = .assistant ∧
      (a.isStreaming = false → a'.isStreaming = false) := by
  induction ls generalizing acc a with
  | nil => exact ⟨a, rfl, ha, id⟩
  | cons l ls ih =>
    obtain ⟨a1, h1, hrole1, hstr1⟩ := processLine_shape acc base a ha l
    unfold processLines
    by_cases hbrk : (processLine acc (base ++ [a]) l).2.2 = true
    · simp only [hbrk, if_true]
      exact ⟨a1, h1, hrole1, hstr1⟩
    · simp only [hbrk, Bool.false_eq_true, if_false]
      rw [h1]
      obtain ⟨a2, h2, hrole2, hstr2⟩ :=
        ih (processLine acc (base ++ [a]) l).1 a1 hrole1
      exact ⟨a2, h2, hrole2, fun h => hstr2 (hstr1 h)⟩

/-- `processLine_shape` lifted over the whole stream of chunks. -/
theorem processStream_shape (chunks : List (List Char)) (acc : String)
    (base : List Message) (a : Message) (ha : a.role = .assistant) :
    ∃ a', (processStream acc (base ++ [a]) chunks).2 = base ++ [a'] ∧
      a'.role = .assistant ∧
      (a.isStreaming = false → a'.isStreaming = false) := by
  induction chunks generalizing acc a with
  | nil => exact ⟨a, rfl, ha, id⟩
  | cons c cs ih =>
    obtain ⟨a1, h1, hrole1, hstr1⟩ := processLines_shape (splitOnNl c) acc base a ha
    unfold processStream
    have hch : (processChunk acc (base ++ [a]) c).2 = base ++ [a1] := h1
    rw [hch]
    obtain ⟨a2, h2, hrole2, hstr2⟩ := ih (processChunk acc (base ++ [a]) c).1 a1 hrole1
    exact ⟨a2, h2, hrole2, fun h => hstr2 (hstr1 h)⟩

/-- A line list containing the sentinel leaves the trailing assistant
message with `isStreaming = false` (an earlier sentinel in the same list
breaks the loop but has already cleared the flag). -/
theorem processLines_done (ls : List (List Char)) (acc : String)
    (base : List Message) (a : Message) (ha : a.role = .assistant)
    (hd : "data: [DONE]".toList ∈ ls) :
    ∃ a', (processLines acc (base ++ [a]) ls).2 = base ++ [a'] ∧
      a'.role = .assistant ∧ a'.isStreaming = false := by
  induction ls generalizing acc a with
  | nil => cases hd
  | cons l ls ih =>
    unfold processLines
    by_cases hl : l = "data: [DONE]".toList
    · subst hl
      rw [processLine_done, setLastAssistant_concat base a ha]
      simp only [if_true]
      exact ⟨{ a with isStreaming := false }, rfl, ha, rfl⟩
    · have hd' : "data: [DONE]".toList ∈ ls := by
        cases List.mem_cons.mp hd with
        | inl h => exact absurd h.symm hl
        | inr h => exact h
      obtain ⟨a1, h1, hrole1, _⟩ := processLine_shape acc base a ha l
      by_cases hbrk : (processLine acc (base ++ [a]) l).2.2 = true
      · exact absurd (processLine_brk acc (base ++ [a]) l hbrk) hl
      · simp only [hbrk, Bool.false_eq_true, if_false]
        rw [h1]
        exact ih (processLine acc (base ++ [a]) l).1 a1 hrole1 hd'

/-- A stream with a complete sentinel line somewhere leaves the trailing
assistant message retired; chunks after it never set the flag again. -/
theorem processStream_done (chunks : List (List Char)) (acc : String)
    (base : List Message) (a : Message) (ha : a.role = .assistant)
    (hd : hasDoneLine chunks) :
    ∃ a', (processStream acc (base ++ [a]) chunks).2 = base ++ [a'] ∧
      a'.role = .assistant ∧ a'.isStreaming = false := by
  induction chunks generalizing acc a with
  | nil =>
    obtain ⟨c, hc, _⟩ := hd
    cases hc
  | cons c cs ih =>
    unfold processStream
    by_cases hc : "data: [DONE]".toList ∈ splitOnNl c
    · obtain ⟨a1, h1, hrole1, hstr1⟩ := processLines_done (splitOnNl c) acc base a ha hc
      have hch : (processChunk acc (base ++ [a]) c).2 = base ++ [a1] := h1
      rw [hch]
      obtain ⟨a2, h2, hrole2, hstr2⟩ :=
        processStream_shape cs (processChunk acc (base ++ [a]) c).1 base a1 hrole1
      exact ⟨a2, h2, hrole2, hstr2 hstr1⟩
    · have hd' : hasDoneLine cs := by
        obtain ⟨c', hc', hin⟩ := hd
        cases List.mem_cons.mp hc' with
        | inl h => exact absurd (h ▸ hin) hc
        | inr h => exact ⟨c', h, hin⟩
      obtain ⟨a1, h1, hrole1, _⟩ := processLines_shape (splitOnNl c) acc base a ha
      have hch : (processChunk acc (base ++ [a]) c).2 = base ++ [a1] := h1
      rw [hch]
      exact ih (processChunk acc (base ++ [a]) c).1 a1 hrole1 hd'

/-- A chunk with no newline splits to itself alone. -/
theorem splitOnNl_no_nl (l : List Char) (h : '\n' ∉ l) : splitOnNl l = [l] := by
  induction l with
  | nil => rfl
  | cons c cs ih =>
    have hc : ¬ c = '\n' := fun hcc => h (hcc ▸ List.mem_cons_self c cs)
    have hcs : '\n' ∉ cs := fun hin => h (List.mem_cons_of_mem c hin)
    unfold splitOnNl
    rw [ih hcs]
    simp [hc]

/-- Splitting at the first newline. -/
theorem splitOnNl_append (l rest : List Char) (h : '\n' ∉ l) :
    splitOnNl (l ++ '\n' :: rest) = l :: splitOnNl rest := by
  induction l with
  | nil => simp [splitOnNl]
  | cons c cs ih =>
    have hc : ¬ c = '\n' := fun hcc => h (hcc ▸ List.mem_cons_self c cs)
    have hcs : '\n' ∉ cs := fun hin => h (List.mem_cons_of_mem c hin)
    have ihr := ih hcs
    calc splitOnNl (c :: cs ++ '\n' :: rest)
        = (if c = '\n' then [] :: splitOnNl (cs ++ '\n' :: rest)
           else
             match splitOnNl (cs ++ '\n' :: rest) with
             | h :: t => (c :: h) :: t
             | [] => [[c]]) := rfl
      _ = (c :: cs) :: splitOnNl rest := by rw [if_neg hc, ihr]

/-- In a history where every completed turn observed `[DONE]`, every
message of the transcript is retired. -/
theorem reachableRetired_allRetired (st : AppState) (h : ReachableRetired st) :
    allRetired st.messages := by
  induction h with
  | init => intro m hm; cases hm
  | type st' s _ ih => exact ih
  | send st' chunks _ hdone ih =>
    unfold sendMessage
    split
    · exact ih
    · intro m hm
      simp only at hm
      unfold runTurn at hm
      rw [show st'.messages ++ [userMessage st', assistantPlaceholder] =
        (st'.messages ++ [userMessage st']) ++ [assistantPlaceholder] from by simp] at hm
      obtain ⟨a', heq, _, hstr⟩ :=
        processStream_done chunks "" (st'.messages ++ [userMessage st'])
          assistantPlaceholder rfl hdone
      rw [heq] at hm
      rcases List.mem_append.mp hm with hbase | hlast
      · rcases List.mem_append.mp hbase with hmsg | huser
        · exact ih m hmsg
        · rw [List.mem_singleton.mp huser]; rfl
      · rw [List.mem_singleton.mp hlast]; exact hstr

/-- Every match of the selected grammar whose captured body is non-empty
contributes its code part to the built part list. -/
theorem buildParts_code_mem (s : List Char) (ms : List FenceMatch) (li : Nat)
    (m : FenceMatch) (hm : m ∈ ms) (hb : ¬ m.body.isEmpty) :
    Part.code (String.mk m.body) (langOf m.lang) ∈ buildParts s ms li := by
  induction ms generalizing li with
  | nil => cases hm
  | cons x xs ih =>
    unfold buildParts
    rcases List.mem_cons.mp hm with rfl | hmem
    · rw [if_neg hb]
      exact List.mem_append_left _ (List.mem_append_right _ (List.mem_singleton.mpr rfl))
    · exact List.mem_append_right _ (ih x.stop hmem)

/-! ## The claims -/

/-- C1. The claim reads: when a decoded frame's JSON payload carries an
error field, the client emits an Error outcome and ends the stream, the
error message is surfaced to the caller, the turn ends, and the trailing
assistant message keeps its partial content with `isStreaming` cleared.
The code instead swallows its own `throw new Error(parsed.error)` in the
`catch` that skips invalid JSON. This theorem evaluates the failing
input: the frame `data: {"error":"boom"}` parses to an object whose
`error` field is truthy, yet the run surfaces no error (`error = none`),
keeps decoding (the later delta `"x"` is applied), and the turn ends
only through the later `[DONE]`. -/
theorem c1_error_frame_swallowed :
    jsonParse "\x7b\"error\":\"boom\"\x7d".toList = some (.jobj [("error", .jstr "boom")]) ∧
    truthyField (.jobj [("error", .jstr "boom")]) "error" = true ∧
    sendMessage { initialState with input := "hi" }
      ["data: \x7b\"error\":\"boom\"\x7d\n".toList,
       "data: \x7b\"content\":\"x\"\x7d\n".toList,
       "data: [DONE]\n".toList] =
    { messages := [{ role := .user, content := "hi" },
                   { role := .assistant, content := "x", isStreaming := false }],
      input := "", isLoading := false, isRecording := false, error := none } :=
  ⟨rfl, rfl, rfl⟩

/-- C5. Confirmed: streaming the frames `{"content":"Hello"}`,
`{"content":" world"}`, `[DONE]` (each a complete `data: `-prefixed
line) leaves the trailing assistant message with content exactly
`"Hello world"` (deltas in arrival order) and `isStreaming = false`. -/
theorem c5_hello_world_stream :
    sendMessage { initialState with input := "hi" }
      ["data: \x7b\"content\":\"Hello\"\x7d\n".toList,
       "data: \x7b\"content\":\" world\"\x7d\n".toList,
       "data: [DONE]\n".toList] =
    { messages := [{ role := .user, content := "hi" },
                   { role := .assistant, content := "Hello world", isStreaming := false }],
      input := "", isLoading := false, isRecording := false, error := none } := by
  rfl

/-- C7. Confirmed: segmenting the exact input `"```print(1)```"` yields
exactly one Code segment with language `"plaintext"` and content
`"print(1)"`; the two higher-priority grammars produce no match anywhere
and the third grammar produces exactly one. -/
theorem c7_no_newline_fence_plaintext :
    parseContent "```print(1)```" = [.code "print(1)" "plaintext"] ∧
    matchAll matchP1At "```print(1)```".toList = [] ∧
    matchAll matchP2At "```print(1)```".toList = [] ∧
    (matchAll matchP3At "```print(1)```".toList).length = 1 :=
  ⟨rfl, rfl, rfl, rfl⟩

/-- C2 counterexample. The claim reads: a line split across two read
chunks is decoded the same as if it had arrived in one chunk, so the
frame `data: {"content":"x"}` delivered as two chunks still yields the
delta `"x"`. In the code each chunk is split on newlines independently
with no carry buffer: delivered as the chunks `data: {"cont` and
`ent":"x"}\n`, the first fragment's payload fails JSON parsing and is
skipped, the second lacks the `data: ` prefix and is ignored — the
assistant content stays `""`, while the one-chunk delivery yields `"x"`. -/
theorem c2_split_line_loses_delta :
    (sendMessage { initialState with input := "hi" }
      ["data: \x7b\"cont".toList, "ent\":\"x\"\x7d\n".toList, "data: [DONE]\n".toList]).messages =
      [{ role := .user, content := "hi" },
       { role := .assistant, content := "", isStreaming := false }] ∧
    (sendMessage { initialState with input := "hi" }
      ["data: \x7b\"content\":\"x\"\x7d\n".toList, "data: [DONE]\n".toList]).messages =
      [{ role := .user, content := "hi" },
       { role := .assistant, content := "x", isStreaming := false }] :=
  ⟨rfl, rfl⟩

/-- C3 counterexample. The claim reads: cancelling a turn immediately
after the first delta clears the trailing assistant message's
`isStreaming` flag. Cancelling after the first delta chunk of this
stream retains the content `"x"` but leaves `isStreaming = true`
(nothing on the abort path clears it), refuting the claim. -/
theorem c3_cancel_leaves_isStreaming :
    (sendMessageCancelled { initialState with input := "hi" }
      ["data: \x7b\"content\":\"x\"\x7d\n".toList, "data: \x7b\"content\":\"y\"\x7d\n".toList] 1).messages =
      [{ role := .user, content := "hi" },
       { role := .assistant, content := "x", isStreaming := true }] ∧
    ((sendMessageCancelled { initialState with input := "hi" }
      ["data: \x7b\"content\":\"x\"\x7d\n".toList, "data: \x7b\"content\":\"y\"\x7d\n".toList] 1).messages.map
        Message.isStreaming ≠ [false, false]) :=
  ⟨rfl, by decide⟩

/-- C8 counterexample. The claim reads: every non-overlapping match of
the selected grammar produces a Code segment, including matches whose
captured body is empty, e.g. on `"``````"`. On that input the selected
(third) grammar produces exactly one match, with empty body — but
`if (codeContent)` drops it, so the output has no segment at all. -/
theorem c8_empty_body_match_dropped :
    matchAll matchP3At "``````".toList = [⟨0, 6, none, []⟩] ∧
    selectMatches "``````".toList = [⟨0, 6, none, []⟩] ∧
    parseContent "``````" = [] :=
  ⟨rfl, rfl, rfl⟩

/-- C10 counterexample. The claim reads: on empty input the inline
annotator returns no runs at all. The code's final fallback
(`if (parts.length === 0)`) pushes the whole text as one run, so the
empty input yields one Plain run with empty content, not zero runs. -/
theorem c10_empty_text_yields_empty_run :
    processInlineCode "" = [.text ""] ∧ processInlineCode "" ≠ [] :=
  ⟨rfl, by decide⟩

/-- C4 counterexample. The claim reads: in every reachable transcript
state at most one message has `isStreaming = true` and it is the last
element. Reachable refutation: cancel a turn after its first delta (the
stale assistant message keeps `isStreaming = true`), then submit again —
the stale streaming message is now followed by two newer messages, so a
non-final message has `isStreaming = true`. -/
theorem c4_invariant_counterexample :
    Reachable (sendMessage
      (setInput
        (sendMessageCancelled (setInput initialState "hi")
          ["data: \x7b\"content\":\"x\"\x7d\n".toList] 1)
        "yo")
      ["data: [DONE]\n".toList]) ∧
    ¬ streamingInv (sendMessage
      (setInput
        (sendMessageCancelled (setInput initialState "hi")
          ["data: \x7b\"content\":\"x\"\x7d\n".toList] 1)
        "yo")
      ["data: [DONE]\n".toList]).messages := by
  refine ⟨.send _ _ (.type _ _ (.cancel _ _ _ (.type _ _ .init))), ?_⟩
  intro h
  have hmem : (⟨.assistant, "x", none, true⟩ : Message) ∈ (sendMessage
      (setInput
        (sendMessageCancelled (setInput initialState "hi")
          ["data: \x7b\"content\":\"x\"\x7d\n".toList] 1)
        "yo")
      ["data: [DONE]\n".toList]).messages.dropLast := by decide
  exact absurd (h _ hmem) (by decide)

/-- C4 amended: the transcript invariant (at most one streaming message,
and it is last) holds in every reachable state provided every completed
turn ended by processing a `[DONE]` frame — both in the quiescent states
of such histories and in any mid-turn or cancelled-turn state reached from
them. Turns ended by cancellation, by a (swallowed) error frame, or by
stream end without `[DONE]` leave `isStreaming` set, and a subsequent
submission then violates the invariant (see the counterexample). -/
theorem c4_streaming_invariant_retired :
    (∀ st, ReachableRetired st → streamingInv st.messages) ∧
    (∀ st chunks k, ReachableRetired st →
      streamingInv (sendMessageCancelled st chunks k).messages) := by
  constructor
  · intro st h m hm
    exact reachableRetired_allRetired st h m (List.dropLast_subset _ hm)
  · intro st chunks k h
    have hall := reachableRetired_allRetired st h
    unfold sendMessageCancelled
    split
    · intro m hm
      exact hall m (List.dropLast_subset _ hm)
    · intro m hm
      simp only at hm
      unfold runTurn at hm
      rw [show st.messages ++ [userMessage st, assistantPlaceholder] =
        (st.messages ++ [userMessage st]) ++ [assistantPlaceholder] from by simp] at hm
      obtain ⟨a', heq, _, _⟩ :=
        processStream_shape (chunks.take k) "" (st.messages ++ [userMessage st])
          assistantPlaceholder rfl
      rw [heq] at hm
      simp only [List.dropLast_concat] at hm
      rcases List.mem_append.mp hm with hmsg | huser
      · exact hall m hmsg
      · rw [List.mem_singleton.mp huser]; rfl

/-- Witness for C4's amended theorem at a one-turn history ended by
`[DONE]` and at a cancelled turn from a typed state. -/
theorem c4_amended_witness :
    streamingInv (sendMessage (setInput initialState "hi")
      ["data: [DONE]\n".toList]).messages ∧
    streamingInv (sendMessageCancelled (setInput initialState "hi")
      ["data: \x7b\"content\":\"x\"\x7d\n".toList] 1).messages :=
  ⟨c4_streaming_invariant_retired.1 _
      (.send _ _ (.type _ _ .init)
        ⟨"data: [DONE]\n".toList, by decide, by decide⟩),
    c4_streaming_invariant_retired.2 _ _ 1 (.type _ _ .init)⟩

/-- C6. Confirmed: a frame whose payload fails JSON parsing (and is not
the sentinel) is skipped locally — a stream of a valid delta frame, a
malformed frame, and another valid delta frame accumulates both deltas
into the trailing assistant message exactly as if the malformed frame
were absent. -/
theorem c6_malformed_frame_skipped
    (acc : String) (msgs0 : List Message) (a : Message) (ha : a.role = .assistant)
    (la m lb : List Char) (pa pb : JValue) (sa sb : String)
    (hpa : "data: ".toList.isPrefixOf la = true)
    (hparsea : jsonParse (la.drop 6) = some pa)
    (herra : truthyField pa "error" = false)
    (hca : pa.getField "content" = some (.jstr sa)) (hsa : sa ≠ "")
    (hpb : "data: ".toList.isPrefixOf lb = true)
    (hparseb : jsonParse (lb.drop 6) = some pb)
    (herrb : truthyField pb "error" = false)
    (hcb : pb.getField "content" = some (.jstr sb)) (hsb : sb ≠ "")
    (hm1 : jsonParse (m.drop 6) = none) (hm2 : m.drop 6 ≠ "[DONE]".toList) :
    processLines acc (msgs0 ++ [a]) [la, m, lb] =
      processLines acc (msgs0 ++ [a]) [la, lb] ∧
    processLines acc (msgs0 ++ [a]) [la, m, lb] =
      (acc ++ sa ++ sb, msgs0 ++ [{ a with content := acc ++ sa ++ sb }]) := by
  have ea := processLine_delta acc (msgs0 ++ [a]) la pa sa hpa hparsea herra hca hsa
  have sla := setLastAssistant_concat msgs0 a ha
    (fun mm => { mm with content := acc ++ sa })
  have eb := processLine_delta (acc ++ sa)
    (msgs0 ++ [{ a with content := acc ++ sa }]) lb pb sb hpb hparseb herrb hcb hsb
  have slb := setLastAssistant_concat msgs0 { a with content := acc ++ sa }
    ha (fun mm => { mm with content := acc ++ sa ++ sb })
  have em := processLine_skip (acc ++ sa)
    (msgs0 ++ [{ a with content := acc ++ sa }]) m hm1 hm2
  constructor
  · unfold processLines
    rw [ea]
    simp only [Bool.false_eq_true, if_false]
    rw [sla]
    unfold processLines
    rw [em]
    simp only [Bool.false_eq_true, if_false]
    rfl
  · unfold processLines
    rw [ea]
    simp only [Bool.false_eq_true, if_false]
    rw [sla]
    unfold processLines
    rw [em]
    simp only [Bool.false_eq_true, if_false]
    unfold processLines
    rw [eb]
    simp only [Bool.false_eq_true, if_false]
    rw [slb]
    unfold processLines
    rfl

/-- Witness for C6 at the frames `{"content":"a"}`, the malformed
`{oops`, `{"content":"b"}`. -/
theorem c6_witness :
    processLines "" ([] ++ [assistantPlaceholder])
      ["data: \x7b\"content\":\"a\"\x7d".toList, "data: \x7boops".toList,
       "data: \x7b\"content\":\"b\"\x7d".toList] =
      processLines "" ([] ++ [assistantPlaceholder])
        ["data: \x7b\"content\":\"a\"\x7d".toList, "data: \x7b\"content\":\"b\"\x7d".toList] ∧
    processLines "" ([] ++ [assistantPlaceholder])
      ["data: \x7b\"content\":\"a\"\x7d".toList, "data: \x7boops".toList,
       "data: \x7b\"content\":\"b\"\x7d".toList] =
      ("" ++ "a" ++ "b", [] ++ [{ assistantPlaceholder with content := "" ++ "a" ++ "b" }]) :=
  c6_malformed_frame_skipped "" [] assistantPlaceholder rfl
    "data: \x7b\"content\":\"a\"\x7d".toList "data: \x7boops".toList
    "data: \x7b\"content\":\"b\"\x7d".toList
    (.jobj [("content", .jstr "a")]) (.jobj [("content", .jstr "b")]) "a" "b"
    rfl rfl rfl rfl (by decide)
    rfl rfl rfl rfl (by decide)
    rfl (by decide)

/-- C2 amended: a frame line split across two read chunks is not
reassembled — each chunk is split on newlines independently and each
fragment is processed as its own line, so whenever neither fragment alone
is a well-formed frame (the payload after its `data: ` position fails
JSON parsing and is not the sentinel), both fragments are skipped and the
delta is lost: the transcript and the accumulator are unchanged. Only
frames delivered entirely within one chunk are decoded. -/
theorem c2_amended_split_frame_lost
    (acc : String) (msgs : List Message) (u v : List Char)
    (hu1 : jsonParse (u.drop 6) = none) (hu2 : u.drop 6 ≠ "[DONE]".toList)
    (hunl : '\n' ∉ u)
    (hv1 : jsonParse (v.drop 6) = none) (hv2 : v.drop 6 ≠ "[DONE]".toList)
    (hvnl : '\n' ∉ v) :
    processStream acc msgs [u, v ++ ['\n']] = (acc, msgs) := by
  have hcu : processChunk acc msgs u = (acc, msgs) := by
    unfold processChunk
    rw [splitOnNl_no_nl u hunl]
    unfold processLines
    rw [processLine_skip acc msgs u hu1 hu2]
    rfl
  have hsv : splitOnNl (v ++ ['\n']) = [v, []] := by
    have := splitOnNl_append v [] hvnl
    simpa using this
  have hcv : processChunk acc msgs (v ++ ['\n']) = (acc, msgs) := by
    unfold processChunk
    rw [hsv]
    unfold processLines
    rw [processLine_skip acc msgs v hv1 hv2]
    simp only [Bool.false_eq_true, if_false]
    unfold processLines
    rw [processLine_empty]
    rfl
  unfold processStream
  rw [hcu]
  unfold processStream
  rw [hcv]
  rfl

/-- Witness for C2's amended theorem at the split frame
`data: {"cont` / `ent":"x"}`. -/
theorem c2_amended_witness :
    processStream "" [assistantPlaceholder]
      ["data: \x7b\"cont".toList, "ent\":\"x\"\x7d".toList ++ ['\n']] =
      ("", [assistantPlaceholder]) :=
  c2_amended_split_frame_lost "" [assistantPlaceholder]
    "data: \x7b\"cont".toList "ent\":\"x\"\x7d".toList
    rfl (by decide) (by decide) rfl (by decide) (by decide)

/-- C3 amended: cancelling immediately after the first delta retains
exactly the content accumulated so far, raises no error condition, and
frames arriving after the cancellation produce no further mutation — but
the trailing assistant message's `isStreaming` flag is NOT cleared: the
abort path never touches it, so it remains `true`. -/
theorem c3_amended_cancel_keeps_partial
    (st : AppState) (line : List Char) (p : JValue) (s : String)
    (rest : List (List Char))
    (hg1 : jsTrim st.input ≠ "") (hg2 : st.isLoading = false)
    (hnl : '\n' ∉ line)
    (hp : "data: ".toList.isPrefixOf line = true)
    (hparse : jsonParse (line.drop 6) = some p)
    (herr : truthyField p "error" = false)
    (hc : p.getField "content" = some (.jstr s)) (hs : s ≠ "") :
    (sendMessageCancelled st ((line ++ ['\n']) :: rest) 1).messages =
      st.messages ++ [userMessage st,
        { role := .assistant, content := s, isStreaming := true }] ∧
    (sendMessageCancelled st ((line ++ ['\n']) :: rest) 1).error = none ∧
    sendMessageCancelled st ((line ++ ['\n']) :: rest) 1 =
      sendMessageCancelled st [line ++ ['\n']] 1 := by
  have hguard : ¬ (jsTrim st.input = "" ∨ st.isLoading = true) := by
    intro hor
    cases hor with
    | inl h => exact hg1 h
    | inr h => rw [hg2] at h; exact Bool.noConfusion h
  have hsplit : splitOnNl (line ++ ['\n']) = [line, []] := by
    have := splitOnNl_append line [] hnl
    simpa using this
  have hrun : runTurn (st.messages ++ [userMessage st, assistantPlaceholder])
      [line ++ ['\n']] =
      st.messages ++ [userMessage st,
        { role := .assistant, content := s, isStreaming := true }] := by
    unfold runTurn
    unfold processStream
    unfold processChunk
    rw [hsplit]
    unfold processLines
    rw [processLine_delta "" _ line p s hp hparse herr hc hs]
    simp only [Bool.false_eq_true, if_false]
    rw [show st.messages ++ [userMessage st, assistantPlaceholder] =
      (st.messages ++ [userMessage st]) ++ [assistantPlaceholder] from by simp]
    rw [setLastAssistant_concat (st.messages ++ [userMessage st]) assistantPlaceholder rfl]
    unfold processLines
    rw [processLine_empty]
    simp only [Bool.false_eq_true, if_false]
    unfold processLines
    unfold processStream
    simp [assistantPlaceholder, String.empty_append]
  constructor
  · unfold sendMessageCancelled
    rw [if_neg hguard]
    simpa using hrun
  constructor
  · unfold sendMessageCancelled
    rw [if_neg hguard]
  · rfl

/-- Witness for C3's amended theorem: cancel after the delta `"x"` with a
second delta frame still unread. -/
theorem c3_amended_witness :
    (sendMessageCancelled { initialState with input := "hi" }
      (("data: \x7b\"content\":\"x\"\x7d".toList ++ ['\n']) ::
        ["data: \x7b\"content\":\"y\"\x7d\n".toList]) 1).messages =
      ({ initialState with input := "hi" } : AppState).messages ++
        [userMessage { initialState with input := "hi" },
         { role := .assistant, content := "x", isStreaming := true }] ∧
    (sendMessageCancelled { initialState with input := "hi" }
      (("data: \x7b\"content\":\"x\"\x7d".toList ++ ['\n']) ::
        ["data: \x7b\"content\":\"y\"\x7d\n".toList]) 1).error = none ∧
    sendMessageCancelled { initialState with input := "hi" }
      (("data: \x7b\"content\":\"x\"\x7d".toList ++ ['\n']) ::
        ["data: \x7b\"content\":\"y\"\x7d\n".toList]) 1 =
      sendMessageCancelled { initialState with input := "hi" }
        ["data: \x7b\"content\":\"x\"\x7d".toList ++ ['\n']] 1 :=
  c3_amended_cancel_keeps_partial { initialState with input := "hi" }
    "data: \x7b\"content\":\"x\"\x7d".toList (.jobj [("content", .jstr "x")]) "x"
    ["data: \x7b\"content\":\"y\"\x7d\n".toList]
    (by decide) rfl (by decide) rfl rfl rfl rfl (by decide)

/-- C9. Confirmed: stopping a recording whose transcription is empty or
whitespace-only returns the session to Idle (`isRecording` and
`isLoading` false), surfaces the soft "No speech detected" notice,
appends no message, and issues no chat request (the result does not
depend on what a request would have streamed). -/
theorem c9_empty_transcription_idles
    (st : AppState) (t : String) (chunks chunks' : List (List Char))
    (hrec : st.isRecording = true) (hload : st.isLoading = false)
    (ht : jsTrim t = "") :
    stopVoiceRecording st t chunks =
      { st with isRecording := false, isLoading := false,
                error := some "No speech detected" } ∧
    (stopVoiceRecording st t chunks).messages = st.messages ∧
    stopVoiceRecording st t chunks = stopVoiceRecording st t chunks' := by
  have hguard : ¬ (st.isLoading = true ∨ ¬ st.isRecording = true) := by
    intro hor
    cases hor with
    | inl h => rw [hload] at h; exact Bool.noConfusion h
    | inr h => exact h hrec
  unfold stopVoiceRecording
  simp only [if_neg hguard, if_pos ht]
  exact ⟨trivial, trivial, trivial⟩

/-- Witness for C9 at a whitespace-only transcription. -/
theorem c9_witness :
    stopVoiceRecording { initialState with isRecording := true } "   " [] =
      { { initialState with isRecording := true } with
          isRecording := false, isLoading := false,
          error := some "No speech detected" } ∧
    (stopVoiceRecording { initialState with isRecording := true } "   " []).messages =
      ({ initialState with isRecording := true } : AppState).messages ∧
    stopVoiceRecording { initialState with isRecording := true } "   " [] =
      stopVoiceRecording { initialState with isRecording := true } "   "
        ["data: [DONE]\n".toList] :=
  c9_empty_transcription_idles { initialState with isRecording := true } "   "
    [] ["data: [DONE]\n".toList] rfl rfl rfl

/-- C10 amended: for every prose text in which the inline-code grammar
finds no span, the annotator returns exactly one Plain run containing the
entire text — including the empty text, for which the fallback still
pushes a single Plain run whose content is the empty string (rather than
producing no runs). -/
theorem c10_amended_whole_text_plain_run (text : String)
    (h : inlineMatches text.toList = []) :
    processInlineCode text = [.text text] := by
  unfold processInlineCode
  rw [h]
  unfold buildRuns
  by_cases hl : 0 < text.toList.length
  · rw [if_pos hl]
    simp only [List.drop_zero]
    have : String.mk text.toList = text := rfl
    rw [this]
    simp
  · rw [if_neg hl]
    rfl

/-- Witness for C10's amended theorem at a span-free text. -/
theorem c10_amended_witness :
    processInlineCode "no spans here" = [.text "no spans here"] :=
  c10_amended_whole_text_plain_run "no spans here" rfl

/-- C8 amended: for the grammar selected by the segmenter, every
non-overlapping match whose captured body is non-empty produces a Code
segment in the output (language defaulting to "plaintext" when the
grammar captured no tag); matches whose captured body is the empty string
produce no segment (see the counterexample). -/
theorem c8_amended_nonempty_body_emitted (text : String) (m : FenceMatch)
    (hm : m ∈ selectMatches text.toList) (hb : ¬ m.body.isEmpty) :
    Part.code (String.mk m.body) (langOf m.lang) ∈ parseContent text := by
  unfold parseContent
  have hne : ¬ (selectMatches text.toList).isEmpty := by
    cases hsel : selectMatches text.toList with
    | nil => rw [hsel] at hm; cases hm
    | cons y ys => simp
  rw [if_neg hne]
  exact buildParts_code_mem text.toList (selectMatches text.toList) 0 m hm hb

/-- Witness for C8's amended theorem on the input made of one fenced
block with body `a`. -/
theorem c8_amended_witness :
    Part.code (String.mk ['a']) (langOf none) ∈ parseContent "```a```" :=
  c8_amended_nonempty_body_emitted "```a```" ⟨0, 7, none, ['a']⟩ (by decide) (by decide)


end GhostGPT
